import Mathlib

/-!
Verification of the row-selection index engine in `c/rowindex.c`.

The C data structures and functions are shallowly embedded as Lean
definitions: 64-bit signed integers become `Int` (the code's own guards keep
every value that matters inside the 64-bit range, and signed overflow in C is
undefined behaviour, so an execution that the claims talk about never wraps);
the one place where the code deliberately narrows a 64-bit value to 32 bits
(`(int32_t) x`) is modelled by the wrap-around function `toInt32`; buffers
(`ind32` / `ind64`) become `Option (List Int)`, with `none` standing for a
pointer that holds no buffer produced by the function at hand (a `NULL`
payload, or a pointer the code never assigned); fallible constructors return
`Option RowIndex`, with `none` for the `NULL` ("no result") signal.

A second, heap-instrumented rendering of `rowindex_merge` at the end of the
file makes the allocation behaviour explicit (buffers live in a `Heap`,
payloads are pointers into it) in order to state the frame property of the
merge operation.
-/

def INT32_MAX : Int := 2147483647

def INT64_MAX : Int := 9223372036854775807

/-- The effect of the C cast `(int32_t) x` on an `int64_t` value: wrap into
`[-2^31, 2^31)`. -/
def toInt32 (x : Int) : Int := (x + 2147483648) % 4294967296 - 2147483648

/-- `RowIndexType` tag from `rowindex.h` (used throughout `rowindex.c`). -/
inductive RowIndexType where
  | RI_SLICE
  | RI_ARR32
  | RI_ARR64
deriving DecidableEq

/-- The `RowIndex` record: header fields `type`, `length`, `min`, `max`, the
`slice.start` / `slice.step` payload, and the `ind32` / `ind64` array payload.
In C the two array pointers alias at the same union offset and carry different
widths; here a single `Option (List Int)` holds the (sign-extended) values,
with `none` for a `NULL` or never-assigned pointer.  Fields that a given
variant does not use (`start`/`step` for arrays, `ind` for slices) are kept at
arbitrary defaults, mirroring the indeterminate union bytes in C; no operation
below reads them for the wrong variant. -/
structure RowIndex where
  type : RowIndexType
  length : Int
  min : Int
  max : Int
  start : Int
  step : Int
  ind : Option (List Int)
deriving DecidableEq

/-- Read `buf[i]` from an array payload, as the C gather loops do. An absent
buffer or an out-of-range index is undefined behaviour in C (never exercised
under the preconditions of the claims); the model returns 0 there. -/
def bufGetD (buf : Option (List Int)) (i : Int) : Int :=
  match buf with
  | none => 0
  | some l => l.getD i.toNat 0

/-- The `ITER_ALL` iteration pattern of `rowindex.c` (lines 22-47): the source
row `j` visited at destination position `i`. -/
def iterGet (r : RowIndex) (i : Int) : Int :=
  match r.type with
  | .RI_SLICE => r.start + r.step * i
  | .RI_ARR32 => bufGetD r.ind i
  | .RI_ARR64 => bufGetD r.ind i

/-- Running minimum as computed by the C loops `if (x < min) min = x;`,
folded over a gathered buffer starting from the initial value `init`. -/
def foldMin (l : List Int) (init : Int) : Int :=
  l.foldl (fun m x => if x < m then x else m) init

/-- Running maximum as computed by the C loops `if (x > max) max = x;`. -/
def foldMax (l : List Int) (init : Int) : Int :=
  l.foldl (fun m x => if x > m then x else m) init

/-- `rowindex_compactify` (lines 56-71).  The C function narrows an `RI_ARR64`
row index to `RI_ARR32` in place when `max` and `length` fit in `int32_t`, and
returns `self`; otherwise it returns `0` and leaves the object untouched.
The model returns `some` of the updated record on success and `none` for the
no-op signal.  The in-place loop `res[i] = (int32_t) src[i]` becomes a map of
`toInt32` over the payload (when a payload is present; a `NULL` payload with
positive length would be undefined behaviour in C). -/
def rowindex_compactify (self : RowIndex) : Option RowIndex :=
  if self.type ≠ .RI_ARR64 ∨ self.max > INT32_MAX ∨ self.length > INT32_MAX then
    none
  else
    some { self with
           type := .RI_ARR32,
           ind := match self.ind with
                  | none => none
                  | some l => some (l.map toInt32) }

/-- The state of a row index after a call to `rowindex_compactify`: the C call
mutates `self` in place exactly when it succeeds, so the post-state is the
compactified record on success and the unchanged record otherwise. -/
def applyCompactify (r : RowIndex) : RowIndex :=
  (rowindex_compactify r).getD r

/-- `rowindex_from_slice` (lines 88-104).  The guard is transcribed verbatim;
note that whenever a division in the guard influences the outcome the
preceding disjuncts guarantee `start ≥ 0` and `count - 1 ≥ 1`, where C's
truncated division and Lean's Euclidean `/` agree. -/
def rowindex_from_slice (start count step : Int) : Option RowIndex :=
  if start < 0 ∨ count < 0 ∨
     (count > 1 ∧ step < -(start / (count - 1))) ∨
     (count > 1 ∧ step > (INT64_MAX - start) / (count - 1)) then
    none
  else
    some { type := .RI_SLICE,
           length := count,
           min := if count = 0 then 0 else
                  if step ≥ 0 then start else start + step * (count - 1),
           max := if count = 0 then 0 else
                  if step ≥ 0 then start + step * (count - 1) else start,
           start := start,
           step := step,
           ind := none }

/-- Modelled from the spec: the column collaborator (declared in headers that
are not part of this repository's core sources).  Section 6 of the spec:
a column "exposes a byte array of length nrows and a type tag equal to the
boolean-byte tag"; byte value 1 means selected. -/
inductive SType where
  | ST_BOOLEAN_I1
  | ST_OTHER
deriving DecidableEq

/-- Modelled from the spec: a column is a storage-type tag plus its byte
array. -/
structure Column where
  stype : SType
  data : List Int
deriving DecidableEq

/-- `rowindex_from_column_with_rowindex` (lines 309-362).  The two `ITER_ALL`
passes visit positions `i ∈ [0, rowindex->length)` with source row
`j = iterGet rowindex i`; a position is selected when `data[j] == 1`.
The first pass counts the selected positions (`nouts`) and records the source
row of the LAST selected visit in `maxrow` (`maxrow = j`).  The second pass
emits, per selected visit, the position `i` — as `(int32_t) i` in the ARR32
branch and `(int64_t) i` in the ARR64 branch.  `res->max` is set to `maxrow`
in every branch, and `res->min` to the first emitted element (`out[0]`). -/
def rowindex_from_column_with_rowindex (col : Column) (rowindex : RowIndex) :
    Option RowIndex :=
  if col.stype ≠ .ST_BOOLEAN_I1 then none
  else
    let data := col.data
    let selected : Nat → Bool :=
      fun i => data.getD (iterGet rowindex (i : Int)).toNat 0 == 1
    let nouts : Int := ((List.range rowindex.length.toNat).filter selected).length
    let maxrow : Int := (List.range rowindex.length.toNat).foldl
      (fun m i => if selected i then iterGet rowindex (i : Int) else m) 0
    if nouts = 0 then
      some { type := .RI_ARR32, length := nouts, min := 0, max := maxrow,
             start := 0, step := 0, ind := none }
    else if nouts ≤ INT32_MAX ∧ maxrow ≤ INT32_MAX then
      let out := ((List.range rowindex.length.toNat).filter selected).map
        (fun i : Nat => toInt32 (i : Int))
      some { type := .RI_ARR32, length := nouts, min := out.headD 0,
             max := maxrow, start := 0, step := 0, ind := some out }
    else
      let out := ((List.range rowindex.length.toNat).filter selected).map
        (fun i : Nat => ((i : Int)))
      some { type := .RI_ARR64, length := nouts, min := out.headD 0,
             max := maxrow, start := 0, step := 0, ind := some out }

/-- `rowindex_merge` (lines 375-559), transcribed branch by branch.

One branch of the source is broken: for `type_bc ∈ {RI_ARR32, RI_ARR64}` and
`ri_ab == NULL` (lines 472-477) the code executes
`memcpy(res->ind32, ri_bc->ind32, elemsize * n)` although `res->ind32` was
never allocated — `dtmalloc(res, RowIndex, 1)` allocates only the header, and
no `dtmalloc(..., n)` for the payload precedes the `memcpy`, unlike in every
other array-producing branch.  The model records that this branch produces no
result buffer by leaving `ind := none` (the write goes through an
indeterminate pointer, which is undefined behaviour in C). -/
def rowindex_merge (ri_ab : Option RowIndex) (ri_bc : Option RowIndex) :
    Option RowIndex :=
  match ri_bc with
  | none => none
  | some bc =>
    let n := bc.length
    if n = 0 then
      some { type := .RI_SLICE, length := n, min := 0, max := 0,
             start := 0, step := 1, ind := none }
    else
      match bc.type with
      | .RI_SLICE =>
        let start_bc := bc.start
        let step_bc := bc.step
        match ri_ab with
        | none =>
          some { type := .RI_SLICE, length := n, min := bc.min, max := bc.max,
                 start := start_bc, step := step_bc, ind := none }
        | some ab =>
          match ab.type with
          | .RI_SLICE =>
            let start := ab.start + ab.step * start_bc
            let step := ab.step * step_bc
            some { type := .RI_SLICE, length := n,
                   min := if step ≥ 0 then start else start + step * (n - 1),
                   max := if step ≥ 0 then start + step * (n - 1) else start,
                   start := start, step := step, ind := none }
          | .RI_ARR32 =>
            if step_bc = 0 then
              let s := bufGetD ab.ind start_bc
              some { type := .RI_SLICE, length := n, min := s, max := s,
                     start := s, step := 0, ind := none }
            else
              let rowsres := (List.range n.toNat).map
                (fun i : Nat => bufGetD ab.ind (start_bc + step_bc * (i : Int)))
              some { type := .RI_ARR32, length := n,
                     min := foldMin rowsres INT32_MAX, max := foldMax rowsres 0,
                     start := 0, step := 0, ind := some rowsres }
          | .RI_ARR64 =>
            if step_bc = 0 then
              let s := bufGetD ab.ind start_bc
              some { type := .RI_SLICE, length := n, min := s, max := s,
                     start := s, step := 0, ind := none }
            else
              let rowsres := (List.range n.toNat).map
                (fun i : Nat => bufGetD ab.ind (start_bc + step_bc * (i : Int)))
              some (applyCompactify
                { type := .RI_ARR64, length := n,
                  min := foldMin rowsres INT64_MAX, max := foldMax rowsres 0,
                  start := 0, step := 0, ind := some rowsres })
      | _ =>
        match ri_ab with
        | none =>
          some { type := bc.type, length := n, min := bc.min, max := bc.max,
                 start := 0, step := 0, ind := none }
        | some ab =>
          match ab.type with
          | .RI_SLICE =>
            let start_ab := ab.start
            let step_ab := ab.step
            let rowsres := (List.range n.toNat).map
              (fun i : Nat => start_ab + (bufGetD bc.ind (i : Int)) * step_ab)
            some (applyCompactify
              { type := .RI_ARR64, length := n,
                min := start_ab + step_ab * (if step_ab ≥ 0 then bc.min else bc.max),
                max := start_ab + step_ab * (if step_ab ≥ 0 then bc.max else bc.min),
                start := 0, step := 0, ind := some rowsres })
          | .RI_ARR32 =>
            match bc.type with
            | .RI_ARR32 =>
              let rows_ac := (List.range n.toNat).map
                (fun i : Nat => bufGetD ab.ind (bufGetD bc.ind (i : Int)))
              some { type := .RI_ARR32, length := n,
                     min := foldMin rows_ac INT32_MAX, max := foldMax rows_ac 0,
                     start := 0, step := 0, ind := some rows_ac }
            | _ =>
              let rows_ac := (List.range n.toNat).map
                (fun i : Nat => bufGetD ab.ind (bufGetD bc.ind (i : Int)))
              some (applyCompactify
                { type := .RI_ARR64, length := n,
                  min := foldMin rows_ac INT64_MAX, max := foldMax rows_ac 0,
                  start := 0, step := 0, ind := some rows_ac })
          | .RI_ARR64 =>
            let rows_ac := (List.range n.toNat).map
              (fun i : Nat => bufGetD ab.ind (bufGetD bc.ind (i : Int)))
            some (applyCompactify
              { type := .RI_ARR64, length := n,
                min := foldMin rows_ac INT64_MAX, max := foldMax rows_ac 0,
                start := 0, step := 0, ind := some rows_ac })

/-- Chunk size of the parallel filter builder (line 603). -/
def rows_per_chunk : Int := 65536

/-- `rowindex_from_filterfn32` (lines 581-672).  The callback is modelled as a
pure function from a chunk `[row0, row1)` to the list of indices it writes
into the caller's buffer.  The OpenMP loop claims output offsets inside an
`ordered` section, which executes once per chunk in increasing chunk order;
each chunk's scratch is later copied at its claimed offset.  The resulting
output buffer is therefore the concatenation of the per-chunk outputs in chunk
order, which the fold below computes.  `min`/`max` are the first and last slot
of the final buffer (`out[0]` / `out[out_length-1]`, 0 when empty). -/
def rowindex_from_filterfn32 (filterfn : Int → Int → List Int) (nrows : Int) :
    Option RowIndex :=
  if nrows > INT32_MAX then none
  else
    let num_chunks := (nrows + rows_per_chunk - 1) / rows_per_chunk
    let out := (List.range num_chunks.toNat).foldl
      (fun (acc : List Int) (i : Nat) =>
        acc ++ filterfn ((i : Int) * rows_per_chunk)
          (min ((i : Int) * rows_per_chunk + rows_per_chunk) nrows)) []
    some { type := .RI_ARR32, length := (out.length : Int),
           min := out.headD 0, max := out.getLastD 0,
           start := 0, step := 0, ind := some out }

/-- Modelled from the spec: the contract of the 32-bit filter callback
(section 6): given `row0`, `row1` it must "write the selected row numbers in
[row0, row1) into the buffer in ascending order and report the count", for a
fixed row predicate `sel`. -/
def chunkSel (sel : Int → Bool) (row0 row1 : Int) : List Int :=
  ((List.range (row1 - row0).toNat).map (fun k : Nat => row0 + (k : Int))).filter sel

example : rowindex_from_slice 10 5 2 =
    some { type := .RI_SLICE, length := 5, min := 10, max := 18,
           start := 10, step := 2, ind := none } := by decide

example : rowindex_from_slice 10 5 (-2) =
    some { type := .RI_SLICE, length := 5, min := 2, max := 10,
           start := 10, step := -2, ind := none } := by decide

example : rowindex_from_slice (-1) 5 2 = none := by decide


/-- Precondition of `rowindex_merge` (spec 4.8): every value produced by the
B→C index is a valid position in the A→B index. -/
def validInto (bc ab : RowIndex) : Prop :=
  ∀ i : Nat, i < bc.length.toNat →
    0 ≤ iterGet bc (i : Int) ∧ iterGet bc (i : Int) < ab.length

/-- Data-model invariant (spec 3): produced source rows are never negative. -/
def valuesNonNeg (r : RowIndex) : Prop :=
  ∀ i : Nat, i < r.length.toNat → 0 ≤ iterGet r (i : Int)

/-- Data-model invariant (spec 3): the `min`/`max` header fields bound every
produced source row. -/
def minMaxSound (r : RowIndex) : Prop :=
  ∀ i : Nat, i < r.length.toNat →
    r.min ≤ iterGet r (i : Int) ∧ iterGet r (i : Int) ≤ r.max

instance (bc ab : RowIndex) : Decidable (validInto bc ab) := by
  unfold validInto; infer_instance

instance (r : RowIndex) : Decidable (valuesNonNeg r) := by
  unfold valuesNonNeg; infer_instance

instance (r : RowIndex) : Decidable (minMaxSound r) := by
  unfold minMaxSound; infer_instance

/-- Buffer heap for the allocation-aware rendering of merge: cell `p` holds
the contents of the `p`-th allocated buffer. -/
abbrev Heap := List (List Int)

/-- As `RowIndex`, but with the array payload as a pointer into a `Heap`,
mirroring the `ind32`/`ind64` pointers of the C struct.  `ptr` is meaningful
only for the array variants. -/
structure RowIndexH where
  type : RowIndexType
  length : Int
  min : Int
  max : Int
  start : Int
  step : Int
  ptr : Nat
deriving DecidableEq

def heapGet (h : Heap) (p : Nat) : List Int := h.getD p []

/-- `buf[k]` for a heap-resident buffer. -/
def heapRead (h : Heap) (p : Nat) (k : Int) : Int := (heapGet h p).getD k.toNat 0

/-- `dtmalloc` of a payload buffer followed by the loop that fills it: a fresh
cell appended to the heap, returning its address. -/
def allocH (h : Heap) (l : List Int) : Heap × Nat := (h ++ [l], h.length)

/-- Heap rendering of `rowindex_compactify`, returning the post-state: on
success the payload cell is narrowed in place (the `dtrealloc` keeps the same
address). -/
def compactifyH (h : Heap) (r : RowIndexH) : Heap × RowIndexH :=
  if r.type ≠ .RI_ARR64 ∨ r.max > INT32_MAX ∨ r.length > INT32_MAX then (h, r)
  else (h.set r.ptr ((heapGet h r.ptr).map toInt32), { r with type := .RI_ARR32 })

/-- Heap rendering of `rowindex_merge` (lines 375-559), used to state its
frame property: it mirrors `rowindex_merge` branch for branch, but every
`dtmalloc`+fill of a result buffer is an explicit `allocH` and the
`rowindex_compactify(res)` calls are explicit in-place cell updates.  In the
broken clone branch (lines 472-477, see `rowindex_merge`) no allocation
happens in the source; the returned `ptr` is left at 0 there and the heap is
untouched (the source's `memcpy` through the unassigned pointer is undefined
behaviour). -/
def rowindex_mergeH (h : Heap) (ri_ab : Option RowIndexH) (ri_bc : Option RowIndexH) :
    Heap × Option RowIndexH :=
  match ri_bc with
  | none => (h, none)
  | some bc =>
    let n := bc.length
    if n = 0 then
      (h, some { type := .RI_SLICE, length := n, min := 0, max := 0,
                 start := 0, step := 1, ptr := 0 })
    else
      match bc.type with
      | .RI_SLICE =>
        let start_bc := bc.start
        let step_bc := bc.step
        match ri_ab with
        | none =>
          (h, some { type := .RI_SLICE, length := n, min := bc.min, max := bc.max,
                     start := start_bc, step := step_bc, ptr := 0 })
        | some ab =>
          match ab.type with
          | .RI_SLICE =>
            let start := ab.start + ab.step * start_bc
            let step := ab.step * step_bc
            (h, some { type := .RI_SLICE, length := n,
                       min := if step ≥ 0 then start else start + step * (n - 1),
                       max := if step ≥ 0 then start + step * (n - 1) else start,
                       start := start, step := step, ptr := 0 })
          | .RI_ARR32 =>
            if step_bc = 0 then
              let s := heapRead h ab.ptr start_bc
              (h, some { type := .RI_SLICE, length := n, min := s, max := s,
                         start := s, step := 0, ptr := 0 })
            else
              let rowsres := (List.range n.toNat).map
                (fun i : Nat => heapRead h ab.ptr (start_bc + step_bc * (i : Int)))
              let al := allocH h rowsres
              (al.1, some { type := .RI_ARR32, length := n,
                            min := foldMin rowsres INT32_MAX,
                            max := foldMax rowsres 0,
                            start := 0, step := 0, ptr := al.2 })
          | .RI_ARR64 =>
            if step_bc = 0 then
              let s := heapRead h ab.ptr start_bc
              (h, some { type := .RI_SLICE, length := n, min := s, max := s,
                         start := s, step := 0, ptr := 0 })
            else
              let rowsres := (List.range n.toNat).map
                (fun i : Nat => heapRead h ab.ptr (start_bc + step_bc * (i : Int)))
              let al := allocH h rowsres
              let cp := compactifyH al.1
                { type := .RI_ARR64, length := n,
                  min := foldMin rowsres INT64_MAX, max := foldMax rowsres 0,
                  start := 0, step := 0, ptr := al.2 }
              (cp.1, some cp.2)
      | _ =>
        match ri_ab with
        | none =>
          (h, some { type := bc.type, length := n, min := bc.min, max := bc.max,
                     start := 0, step := 0, ptr := 0 })
        | some ab =>
          match ab.type with
          | .RI_SLICE =>
            let start_ab := ab.start
            let step_ab := ab.step
            let rowsres := (List.range n.toNat).map
              (fun i : Nat => start_ab + (heapRead h bc.ptr (i : Int)) * step_ab)
            let al := allocH h rowsres
            let cp := compactifyH al.1
              { type := .RI_ARR64, length := n,
                min := start_ab + step_ab * (if step_ab ≥ 0 then bc.min else bc.max),
                max := start_ab + step_ab * (if step_ab ≥ 0 then bc.max else bc.min),
                start := 0, step := 0, ptr := al.2 }
            (cp.1, some cp.2)
          | .RI_ARR32 =>
            match bc.type with
            | .RI_ARR32 =>
              let rows_ac := (List.range n.toNat).map
                (fun i : Nat => heapRead h ab.ptr (heapRead h bc.ptr (i : Int)))
              let al := allocH h rows_ac
              (al.1, some { type := .RI_ARR32, length := n,
                            min := foldMin rows_ac INT32_MAX,
                            max := foldMax rows_ac 0,
                            start := 0, step := 0, ptr := al.2 })
            | _ =>
              let rows_ac := (List.range n.toNat).map
                (fun i : Nat => heapRead h ab.ptr (heapRead h bc.ptr (i : Int)))
              let al := allocH h rows_ac
              let cp := compactifyH al.1
                { type := .RI_ARR64, length := n,
                  min := foldMin rows_ac INT64_MAX, max := foldMax rows_ac 0,
                  start := 0, step := 0, ptr := al.2 }
              (cp.1, some cp.2)
          | .RI_ARR64 =>
            let rows_ac := (List.range n.toNat).map
              (fun i : Nat => heapRead h ab.ptr (heapRead h bc.ptr (i : Int)))
            let al := allocH h rows_ac
            let cp := compactifyH al.1
              { type := .RI_ARR64, length := n,
                min := foldMin rows_ac INT64_MAX, max := foldMax rows_ac 0,
                start := 0, step := 0, ptr := al.2 }
            (cp.1, some cp.2)

/-- Concrete ARR64 row index used to exercise `rowindex_compactify`. -/
def exArr64 : RowIndex :=
  { type := .RI_ARR64, length := 2, min := 1, max := 5, start := 0, step := 0,
    ind := some [5, 1] }

/-- Concrete ARR32 row index (compactification is a no-op on it). -/
def exArr32 : RowIndex :=
  { type := .RI_ARR32, length := 4, min := 1, max := 9, start := 0, step := 0,
    ind := some [5, 3, 9, 1] }

/-- Concrete slice 0,1,...  (the identity slice of length 2). -/
def exSlice2 : RowIndex :=
  { type := .RI_SLICE, length := 2, min := 0, max := 1, start := 0, step := 1,
    ind := none }

/-- Boolean column whose bytes select source rows 5 and 6. -/
def exCol56 : Column :=
  { stype := .ST_BOOLEAN_I1, data := [0, 0, 0, 0, 0, 1, 1, 0] }

/-- Slice visiting source rows 5, 6, 7. -/
def exSlice567 : RowIndex :=
  { type := .RI_SLICE, length := 3, min := 5, max := 7, start := 5, step := 1,
    ind := none }

/-- One-element ARR32 row index, a B→C input for the broken clone branch of
merge. -/
def exArr7 : RowIndex :=
  { type := .RI_ARR32, length := 1, min := 7, max := 7, start := 0, step := 0,
    ind := some [7] }

/-- Buffer of 2^31+1 ones followed by a single zero: an ARR64 payload whose
iteration has more than INT32_MAX positions while every stored value is
tiny. -/
def bigBuf : List Int := List.replicate 2147483649 1 ++ [0]

/-- ARR64 row index of length 2^31+2 over `bigBuf` (a valid live RowIndex:
ARR64 has no int32 length cap, values are 0/1, min/max are tight). -/
def exArr64Big : RowIndex :=
  { type := .RI_ARR64, length := 2147483650, min := 0, max := 1, start := 0,
    step := 0, ind := some bigBuf }

/-- Two-byte boolean column: byte 0 selects, byte 1 does not. -/
def exCol10 : Column := { stype := .ST_BOOLEAN_I1, data := [1, 0] }

/-- Concrete heap holding the payloads of the two row indexes below. -/
def exHeap : Heap := [[5, 3, 9, 1], [0, 1]]

/-- Heap-resident A→B index: ARR32 over heap cell 0. -/
def exAH : RowIndexH :=
  { type := .RI_ARR32, length := 4, min := 1, max := 9, start := 0, step := 0,
    ptr := 0 }

/-- Heap-resident B→C index: ARR32 over heap cell 1. -/
def exBH : RowIndexH :=
  { type := .RI_ARR32, length := 2, min := 0, max := 1, start := 0, step := 0,
    ptr := 1 }

theorem toInt32_eq_self (x : Int) (h0 : -2147483648 ≤ x) (h1 : x ≤ 2147483647) :
    toInt32 x = x := by
  unfold toInt32; omega

theorem getD_map_range (m : Nat) (f : Nat → Int) (i : Nat) (h : i < m) :
    ((List.range m).map f).getD i 0 = f i := by
  rw [List.getD_eq_getElem?_getD, List.getElem?_map, List.getElem?_range h]
  rfl

theorem getD_of_ge_length (l : List Int) (i : Nat) (h : l.length ≤ i) :
    l.getD i 0 = 0 := by
  rw [List.getD_eq_getElem?_getD, List.getElem?_eq_none h]
  rfl

theorem init_le_foldMax (l : List Int) : ∀ init : Int, init ≤ foldMax l init := by
  induction l with
  | nil => intro init; simp [foldMax]
  | cons y ys ih =>
    intro init
    show init ≤ foldMax ys (if y > init then y else init)
    split
    · exact le_trans (by omega) (ih y)
    · exact ih init

theorem le_foldMax_of_mem {l : List Int} {x : Int} (hx : x ∈ l) :
    ∀ init : Int, x ≤ foldMax l init := by
  induction l with
  | nil => cases hx
  | cons y ys ih =>
    intro init
    rcases List.mem_cons.1 hx with rfl | hmem
    · show x ≤ foldMax ys (if x > init then x else init)
      have h1 : x ≤ (if x > init then x else init) := by split <;> omega
      exact le_trans h1 (init_le_foldMax ys _)
    · exact ih hmem _

/-- After the `rowindex_compactify(res)` call that ends several merge
branches, the produced elements and the length are unchanged, provided every
element of the payload lies in `[-2^31, max]`. -/
theorem applyCompactify_iterGet (r : RowIndex) (l : List Int)
    (htype : r.type = .RI_ARR64) (hind : r.ind = some l)
    (hbound : ∀ x ∈ l, -2147483648 ≤ x ∧ x ≤ r.max) :
    (applyCompactify r).length = r.length ∧
    ∀ i : Int, iterGet (applyCompactify r) i = iterGet r i := by
  unfold applyCompactify rowindex_compactify
  by_cases hc : r.type ≠ .RI_ARR64 ∨ r.max > INT32_MAX ∨ r.length > INT32_MAX
  · rw [if_pos hc]; exact ⟨rfl, fun _ => rfl⟩
  · rw [if_neg hc]
    push_neg at hc
    have hmax : r.max ≤ 2147483647 := hc.2.1
    have hmap : l.map toInt32 = l := by
      have hpt : ∀ x ∈ l, toInt32 x = x := fun x hx =>
        toInt32_eq_self x (hbound x hx).1 (le_trans (hbound x hx).2 hmax)
      calc l.map toInt32 = l.map id := List.map_congr_left hpt
        _ = l := List.map_id l
    refine ⟨rfl, fun i => ?_⟩
    simp [iterGet, htype, hind, bufGetD, hmap]

theorem rowindex_compactify_none (r : RowIndex)
    (hc : r.type ≠ .RI_ARR64 ∨ r.max > INT32_MAX ∨ r.length > INT32_MAX) :
    rowindex_compactify r = none := by
  unfold rowindex_compactify; rw [if_pos hc]

theorem rowindex_compactify_some (r : RowIndex)
    (h1 : r.type = .RI_ARR64) (h2 : r.max ≤ INT32_MAX) (h3 : r.length ≤ INT32_MAX) :
    rowindex_compactify r =
      some { r with
             type := .RI_ARR32,
             ind := match r.ind with
                    | none => none
                    | some l => some (l.map toInt32) } := by
  unfold rowindex_compactify
  rw [if_neg (by push_neg; exact ⟨h1, h2, h3⟩)]

/-- C7: compactification is idempotent; applied to a row index that is not
RI_ARR64, or whose max or length exceeds the int32 range, it returns the no-op
signal (and, the call being a no-op, the object is unchanged); on success the
object keeps its length, min, max and (for payloads within the data-model
bounds) its element values, now as RI_ARR32. -/
theorem rowindex_compactify_claim (r : RowIndex) :
    applyCompactify (applyCompactify r) = applyCompactify r ∧
    ((r.type ≠ .RI_ARR64 ∨ r.max > INT32_MAX ∨ r.length > INT32_MAX) →
      rowindex_compactify r = none ∧ applyCompactify r = r) ∧
    (∀ r2, rowindex_compactify r = some r2 →
      r2.type = .RI_ARR32 ∧ r2.length = r.length ∧ r2.min = r.min ∧ r2.max = r.max) ∧
    (∀ l r2, r.ind = some l → rowindex_compactify r = some r2 →
      (∀ x ∈ l, 0 ≤ x ∧ x ≤ r.max) → r2.ind = some l) := by
  by_cases hc : r.type ≠ .RI_ARR64 ∨ r.max > INT32_MAX ∨ r.length > INT32_MAX
  case pos =>
    have hnone := rowindex_compactify_none r hc
    have hid : applyCompactify r = r := by unfold applyCompactify; rw [hnone]; rfl
    refine ⟨by rw [hid, hid], fun _ => ⟨hnone, hid⟩,
      fun r2 h => absurd h (by simp [hnone]),
      fun l r2 _ h => absurd h (by simp [hnone])⟩
  case neg =>
    push_neg at hc
    obtain ⟨hty, hmax, hlen⟩ := hc
    have hsome := rowindex_compactify_some r hty hmax hlen
    have happ : applyCompactify r =
        { r with
          type := .RI_ARR32,
          ind := match r.ind with
                 | none => none
                 | some l => some (l.map toInt32) } := by
      unfold applyCompactify; rw [hsome]; rfl
    refine ⟨?_, ?_, ?_, ?_⟩
    · show (rowindex_compactify (applyCompactify r)).getD (applyCompactify r) =
        applyCompactify r
      rw [rowindex_compactify_none (applyCompactify r) (by left; rw [happ]; simp)]
      rfl
    · intro hcontra
      rcases hcontra with h | h | h
      · exact absurd hty h
      · omega
      · omega
    · intro r2 h
      rw [hsome] at h
      injection h with h
      subst h
      exact ⟨rfl, rfl, rfl, rfl⟩
    · intro l r2 hind h hwf
      rw [hsome] at h
      injection h with h
      subst h
      show (match r.ind with
            | none => none
            | some l => some (l.map toInt32)) = some l
      rw [hind]
      show some (l.map toInt32) = some l
      have hmax47 : r.max ≤ 2147483647 := hmax
      have hpt : ∀ x ∈ l, toInt32 x = x := fun x hx =>
        toInt32_eq_self x (by have := (hwf x hx).1; omega)
          (le_trans (hwf x hx).2 hmax47)
      rw [show l.map toInt32 = l from
        (List.map_congr_left hpt).trans (List.map_id l)]

/-- Witness for C7 at concrete inputs: the ARR64 index with payload [5, 1]
compactifies to ARR32 keeping its fields and elements, compactification of it
is idempotent, and an ARR32 input yields the no-op signal. -/
theorem rowindex_compactify_claim_witness :
    applyCompactify (applyCompactify exArr64) = applyCompactify exArr64 ∧
    rowindex_compactify exArr32 = none ∧
    ∃ r2, rowindex_compactify exArr64 = some r2 ∧ r2.type = .RI_ARR32 ∧
      r2.length = 2 ∧ r2.min = 1 ∧ r2.max = 5 ∧ r2.ind = some [5, 1] := by
  obtain ⟨h1, -, h3, h4⟩ := rowindex_compactify_claim exArr64
  obtain ⟨-, h2b, -, -⟩ := rowindex_compactify_claim exArr32
  have hsome : rowindex_compactify exArr64 = some (applyCompactify exArr64) := by
    decide
  obtain ⟨f1, f2, f3, f4⟩ := h3 _ hsome
  have f5 := h4 [5, 1] _ rfl hsome (by decide)
  exact ⟨h1, (h2b (by decide)).1, _, hsome, f1, by rw [f2]; rfl, by rw [f3]; rfl,
    by rw [f4]; rfl, f5⟩

/-- C10: when the B→C argument is NULL, merge returns the no-result signal
NULL at once — in the heap model it also leaves the heap (and hence the A→B
argument) untouched and allocates nothing. -/
theorem rowindex_merge_null_bc :
    (∀ ri_ab : Option RowIndex, rowindex_merge ri_ab none = none) ∧
    (∀ (h : Heap) (ri_ab : Option RowIndexH),
      rowindex_mergeH h ri_ab none = (h, none)) :=
  ⟨fun _ => rfl, fun _ _ => rfl⟩

/-- C2 (refuting evidence, code bug): on the boolean column whose bytes select
source rows 5 and 6, composed with the slice visiting rows 5, 6, 7, the
constructor produces destination indices [0, 1] (their true maximum is 1), yet
sets the max field to 6 — the last visited selected source row.  Range
tightness fails on the code. -/
theorem from_column_with_rowindex_max_bug :
    ∃ res, rowindex_from_column_with_rowindex exCol56 exSlice567 = some res ∧
      res.ind = some [0, 1] ∧ iterGet res 0 = 0 ∧ iterGet res 1 = 1 ∧
      res.length = 2 ∧ res.max = 6 ∧ foldMax [0, 1] 0 = 1 := by
  refine ⟨{ type := .RI_ARR32, length := 2, min := 0, max := 6, start := 0,
            step := 0, ind := some [0, 1] }, ?_, ?_, ?_, ?_, ?_, ?_, ?_⟩ <;> decide

/-- C3 (refuting evidence, code bug): merging NULL with the one-element ARR32
index [7] reaches the clone branch at lines 472-477, which copies B's buffer
through the never-allocated `res->ind32` pointer; no result buffer exists
(`ind = none` in the model), so the result does not carry a fresh copy of B's
buffer. -/
theorem merge_clone_arr_no_alloc :
    ∃ res, rowindex_merge none (some exArr7) = some res ∧
      res.type = .RI_ARR32 ∧ res.length = 1 ∧ res.min = 7 ∧ res.max = 7 ∧
      res.ind = none := by
  refine ⟨{ type := .RI_ARR32, length := 1, min := 7, max := 7, start := 0,
            step := 0, ind := none }, ?_, ?_, ?_, ?_, ?_, ?_⟩ <;> decide

/-- For `c > 0` the guard disjunct `step < -(start / c)` is exactly
"the endpoint `start + step * c` is negative". -/
theorem slice_guard_lo (s c t : Int) (hc : 0 < c) :
    t < -(s / c) ↔ s + t * c < 0 := by
  have h1 : (t < -(s / c)) ↔ s / c < -t := by omega
  rw [h1, Int.ediv_lt_iff_lt_mul hc]
  constructor <;> intro h <;> nlinarith

/-- For `c > 0` the guard disjunct `step > (M - start) / c` is exactly
"the endpoint `start + step * c` exceeds `M`". -/
theorem slice_guard_hi (s c t M : Int) (hc : 0 < c) :
    (M - s) / c < t ↔ M < s + t * c := by
  have h1 : ((M - s) / c < t) ↔ ¬ (t ≤ (M - s) / c) := by omega
  rw [h1, Int.le_ediv_iff_mul_le hc]
  constructor <;> intro h <;> nlinarith

/-- C4: `rowindex_from_slice` returns the no-result signal exactly when
`start < 0`, or `count < 0`, or `count > 1` and the endpoint
`start + step * (count - 1)` is negative or overflows the 64-bit signed
range; on every other input it returns an RI_SLICE row index of length
`count` (in particular `step = 0` and `count ∈ {0, 1}` are accepted). -/
theorem rowindex_from_slice_claim (start count step : Int) :
    (rowindex_from_slice start count step = none ↔
      start < 0 ∨ count < 0 ∨
        (1 < count ∧ (start + step * (count - 1) < 0 ∨
          INT64_MAX < start + step * (count - 1)))) ∧
    (∀ r, rowindex_from_slice start count step = some r →
      r.type = .RI_SLICE ∧ r.length = count) := by
  have hguard : (start < 0 ∨ count < 0 ∨
      (count > 1 ∧ step < -(start / (count - 1))) ∨
      (count > 1 ∧ step > (INT64_MAX - start) / (count - 1))) ↔
      (start < 0 ∨ count < 0 ∨
        (1 < count ∧ (start + step * (count - 1) < 0 ∨
          INT64_MAX < start + step * (count - 1)))) := by
    by_cases hs : start < 0
    · simp [hs]
    · by_cases hc : count < 0
      · simp [hc]
      · by_cases h1 : 1 < count
        · have hcpos : 0 < count - 1 := by omega
          rw [slice_guard_lo start (count - 1) step hcpos]
          have := slice_guard_hi start (count - 1) step INT64_MAX hcpos
          constructor
          · rintro (h | h | ⟨-, h⟩ | ⟨-, h⟩)
            · exact Or.inl h
            · exact Or.inr (Or.inl h)
            · exact Or.inr (Or.inr ⟨h1, Or.inl h⟩)
            · exact Or.inr (Or.inr ⟨h1, Or.inr (this.1 h)⟩)
          · rintro (h | h | ⟨-, h | h⟩)
            · exact Or.inl h
            · exact Or.inr (Or.inl h)
            · exact Or.inr (Or.inr (Or.inl ⟨h1, h⟩))
            · exact Or.inr (Or.inr (Or.inr ⟨h1, this.2 h⟩))
        · simp only [gt_iff_lt]
          constructor
          · rintro (h | h | ⟨h, -⟩ | ⟨h, -⟩) <;> omega
          · rintro (h | h | ⟨h, -⟩) <;> omega
  constructor
  · by_cases hg : (start < 0 ∨ count < 0 ∨
        (count > 1 ∧ step < -(start / (count - 1))) ∨
        (count > 1 ∧ step > (INT64_MAX - start) / (count - 1)))
    · unfold rowindex_from_slice
      rw [if_pos hg]
      simp only [true_iff]
      exact hguard.1 hg
    · unfold rowindex_from_slice
      rw [if_neg hg]
      simp only [reduceCtorEq, false_iff]
      exact fun h => hg (hguard.2 h)
  · intro r h
    unfold rowindex_from_slice at h
    by_cases hg : (start < 0 ∨ count < 0 ∨
        (count > 1 ∧ step < -(start / (count - 1))) ∨
        (count > 1 ∧ step > (INT64_MAX - start) / (count - 1)))
    · rw [if_pos hg] at h; cases h
    · rw [if_neg hg] at h
      injection h with h
      subst h
      exact ⟨rfl, rfl⟩

/-- Witness for C4 at a concrete input: slice (10, 5, 2) is accepted and
yields an RI_SLICE of length 5. -/
theorem rowindex_from_slice_claim_witness :
    ∃ r, rowindex_from_slice 10 5 2 = some r ∧ r.type = .RI_SLICE ∧
      r.length = 5 := by
  have h := (rowindex_from_slice_claim 10 5 2).2
  have e : rowindex_from_slice 10 5 2 =
      some { type := .RI_SLICE, length := 5, min := 10, max := 18, start := 10,
             step := 2, ind := none } := by decide
  exact ⟨_, e, h _ e⟩

/-- C6: merging two slices (B nonempty, its values valid positions into A)
yields a slice with start = start_ab + step_ab * start_bc and
step = step_ab * step_bc, whose min and max are the two endpoints of that
slice ordered by the sign of step. -/
theorem rowindex_merge_slice_slice (ab bc : RowIndex)
    (hab : ab.type = .RI_SLICE) (hbc : bc.type = .RI_SLICE)
    (hn : 0 < bc.length) (hvalid : validInto bc ab) :
    ∃ res, rowindex_merge (some ab) (some bc) = some res ∧
      res.type = .RI_SLICE ∧ res.length = bc.length ∧
      res.start = ab.start + ab.step * bc.start ∧
      res.step = ab.step * bc.step ∧
      res.min = (if res.step ≥ 0 then res.start
                 else res.start + res.step * (bc.length - 1)) ∧
      res.max = (if res.step ≥ 0 then res.start + res.step * (bc.length - 1)
                 else res.start) := by
  clear hvalid
  obtain ⟨aty, alen, amin, amax, ast, asp, aind⟩ := ab
  obtain ⟨bty, blen, bmin, bmax, bst, bsp, bind⟩ := bc
  dsimp only at hab hbc hn ⊢
  subst hab
  subst hbc
  simp only [rowindex_merge]
  rw [if_neg (by omega : ¬ (blen = 0))]
  exact ⟨_, rfl, rfl, rfl, rfl, rfl, rfl, rfl⟩

/-- Witness for C6: slice (100, step 10, length 4) composed with slice
(0, step 1, length 3) gives the slice (100, step 10, length 3) with
min 100, max 120. -/
theorem rowindex_merge_slice_slice_witness :
    ∃ res, rowindex_merge
      (some { type := .RI_SLICE, length := 4, min := 100, max := 130,
              start := 100, step := 10, ind := none })
      (some { type := .RI_SLICE, length := 3, min := 0, max := 2,
              start := 0, step := 1, ind := none }) = some res ∧
      res.type = .RI_SLICE ∧ res.length = 3 ∧
      res.start = 100 + 10 * 0 ∧ res.step = 10 * 1 ∧
      res.min = (if res.step ≥ 0 then res.start else res.start + res.step * (3 - 1)) ∧
      res.max = (if res.step ≥ 0 then res.start + res.step * (3 - 1) else res.start) :=
  rowindex_merge_slice_slice
    { type := .RI_SLICE, length := 4, min := 100, max := 130,
      start := 100, step := 10, ind := none }
    { type := .RI_SLICE, length := 3, min := 0, max := 2,
      start := 0, step := 1, ind := none }
    rfl rfl (by decide) (by decide)

theorem bufGetD_map_range (f : Nat → Int) (m i : Nat) (hi : i < m) :
    bufGetD (some ((List.range m).map f)) (i : Int) = f i := by
  show ((List.range m).map f).getD ((i : Int)).toNat 0 = f i
  rw [Int.toNat_natCast]
  exact getD_map_range m f i hi

/-- Under the merge precondition, every gathered element `A[B[k]]` is a
non-negative source row. -/
theorem gather_nonneg (ab bc : RowIndex) (hvalid : validInto bc ab)
    (hnn : valuesNonNeg ab) (k : Nat) (hk : k < bc.length.toNat) :
    0 ≤ iterGet ab (iterGet bc (k : Int)) := by
  obtain ⟨h0, h1⟩ := hvalid k hk
  have h2 : (iterGet bc (k : Int)).toNat < ab.length.toNat := by omega
  have h3 := hnn _ h2
  rwa [Int.toNat_of_nonneg h0] at h3

/-- A gathered ARR64 result whose `max` field bounds all its elements keeps
its length and elements across the final `rowindex_compactify(res)` call. -/
theorem applyCompactify_gather (n : Int) (f : Nat → Int) (mn mx : Int)
    (hbound : ∀ k : Nat, k < n.toNat → -2147483648 ≤ f k ∧ f k ≤ mx) :
    (applyCompactify
      { type := .RI_ARR64, length := n, min := mn, max := mx, start := 0,
        step := 0, ind := some ((List.range n.toNat).map f) }).length = n ∧
    ∀ i : Nat, i < n.toNat →
      iterGet (applyCompactify
        { type := .RI_ARR64, length := n, min := mn, max := mx, start := 0,
          step := 0, ind := some ((List.range n.toNat).map f) }) (i : Int) = f i := by
  have hb : ∀ x ∈ (List.range n.toNat).map f, -2147483648 ≤ x ∧ x ≤ mx := by
    intro x hx
    obtain ⟨k, hk, rfl⟩ := List.mem_map.1 hx
    exact hbound k (List.mem_range.1 hk)
  obtain ⟨hlen, hget⟩ := applyCompactify_iterGet
    { type := .RI_ARR64, length := n, min := mn, max := mx, start := 0,
      step := 0, ind := some ((List.range n.toNat).map f) }
    ((List.range n.toNat).map f) rfl rfl hb
  refine ⟨hlen, fun i hi => ?_⟩
  rw [hget]
  exact bufGetD_map_range f n.toNat i hi

/-- C1: for every well-formed A→B and B→C pair satisfying the stated
precondition of merge (each B→C value is a valid position into A→B; the
data-model invariants hold for the inputs), the merged index has the length
of B→C and produces exactly `A[B[i]]` at every position `i`, across all nine
variant combinations. -/
theorem rowindex_merge_semantics (ab bc : RowIndex)
    (hvalid : validInto bc ab) (hnn : valuesNonNeg ab) (hmm : minMaxSound bc) :
    ∃ res, rowindex_merge (some ab) (some bc) = some res ∧
      res.length = bc.length ∧
      ∀ i : Nat, i < bc.length.toNat →
        iterGet res (i : Int) = iterGet ab (iterGet bc (i : Int)) := by
  have hgnn : ∀ k : Nat, k < bc.length.toNat →
      0 ≤ iterGet ab (iterGet bc (k : Int)) :=
    fun k hk => gather_nonneg ab bc hvalid hnn k hk
  by_cases hn0 : bc.length = 0
  · have he : rowindex_merge (some ab) (some bc) =
        some { type := .RI_SLICE, length := bc.length, min := 0, max := 0,
               start := 0, step := 1, ind := none } := by
      simp only [rowindex_merge]
      rw [if_pos hn0]
    exact ⟨_, he, rfl, fun i hi => absurd hi (by omega)⟩
  · cases hbcty : bc.type with
    | RI_SLICE =>
      cases habty : ab.type with
      | RI_SLICE =>
        simp only [rowindex_merge, habty, hbcty]
        rw [if_neg hn0]
        refine ⟨_, rfl, rfl, fun i hi => ?_⟩
        simp only [iterGet, habty, hbcty]
        ring
      | RI_ARR32 =>
        simp only [rowindex_merge, habty, hbcty]
        rw [if_neg hn0]
        by_cases hbsp : bc.step = 0
        · rw [if_pos hbsp]
          refine ⟨_, rfl, rfl, fun i hi => ?_⟩
          simp only [iterGet, habty, hbcty, hbsp, zero_mul, add_zero]
        · rw [if_neg hbsp]
          refine ⟨_, rfl, rfl, fun i hi => ?_⟩
          simp only [iterGet, habty, hbcty]
          exact bufGetD_map_range _ _ i hi
      | RI_ARR64 =>
        simp only [rowindex_merge, habty, hbcty]
        rw [if_neg hn0]
        by_cases hbsp : bc.step = 0
        · rw [if_pos hbsp]
          refine ⟨_, rfl, rfl, fun i hi => ?_⟩
          simp only [iterGet, habty, hbcty, hbsp, zero_mul, add_zero]
        · rw [if_neg hbsp]
          have hgnn2 : ∀ k : Nat, k < bc.length.toNat →
              0 ≤ bufGetD ab.ind (bc.start + bc.step * (k : Int)) := by
            intro k hk
            have := hgnn k hk
            simpa only [iterGet, habty, hbcty] using this
          obtain ⟨hlen, hget⟩ := applyCompactify_gather bc.length
            (fun k : Nat => bufGetD ab.ind (bc.start + bc.step * (k : Int)))
            (foldMin ((List.range bc.length.toNat).map
              (fun k : Nat => bufGetD ab.ind (bc.start + bc.step * (k : Int)))) INT64_MAX)
            (foldMax ((List.range bc.length.toNat).map
              (fun k : Nat => bufGetD ab.ind (bc.start + bc.step * (k : Int)))) 0)
            (by
              intro k hk
              refine ⟨le_trans (by norm_num) (hgnn2 k hk), ?_⟩
              exact le_foldMax_of_mem
                (List.mem_map.2 ⟨k, List.mem_range.2 hk, rfl⟩) 0)
          refine ⟨_, rfl, hlen, fun i hi => ?_⟩
          rw [hget i hi]
          simp only [iterGet, habty, hbcty]
    | RI_ARR32 =>
      cases habty : ab.type with
      | RI_SLICE =>
        simp only [rowindex_merge, habty, hbcty]
        rw [if_neg hn0]
        have hb : ∀ k : Nat, k < bc.length.toNat →
            -2147483648 ≤ ab.start + (bufGetD bc.ind (k : Int)) * ab.step ∧
            ab.start + (bufGetD bc.ind (k : Int)) * ab.step ≤
              ab.start + ab.step * (if ab.step ≥ 0 then bc.max else bc.min) := by
          intro k hk
          have h0 := hgnn k hk
          simp only [iterGet, habty, hbcty] at h0
          obtain ⟨hlo, hhi⟩ := hmm k hk
          simp only [iterGet, hbcty] at hlo hhi
          constructor
          · nlinarith [h0]
          · rcases le_or_lt 0 ab.step with hsp | hsp
            · rw [if_pos (by omega : ab.step ≥ 0)]
              nlinarith [mul_le_mul_of_nonneg_left hhi hsp]
            · rw [if_neg (by omega : ¬ (ab.step ≥ 0))]
              nlinarith [mul_le_mul_of_nonpos_left hlo (le_of_lt hsp)]
        obtain ⟨hlen, hget⟩ := applyCompactify_gather bc.length
          (fun k : Nat => ab.start + (bufGetD bc.ind (k : Int)) * ab.step)
          (ab.start + ab.step * (if ab.step ≥ 0 then bc.min else bc.max))
          (ab.start + ab.step * (if ab.step ≥ 0 then bc.max else bc.min))
          hb
        refine ⟨_, rfl, hlen, fun i hi => ?_⟩
        rw [hget i hi]
        simp only [iterGet, habty, hbcty]
        ring
      | RI_ARR32 =>
        simp only [rowindex_merge, habty, hbcty]
        rw [if_neg hn0]
        refine ⟨_, rfl, rfl, fun i hi => ?_⟩
        simp only [iterGet, habty, hbcty]
        exact bufGetD_map_range _ _ i hi
      | RI_ARR64 =>
        simp only [rowindex_merge, habty, hbcty]
        rw [if_neg hn0]
        have hgnn2 : ∀ k : Nat, k < bc.length.toNat →
            0 ≤ bufGetD ab.ind (bufGetD bc.ind (k : Int)) := by
          intro k hk
          have := hgnn k hk
          simpa only [iterGet, habty, hbcty] using this
        obtain ⟨hlen, hget⟩ := applyCompactify_gather bc.length
          (fun k : Nat => bufGetD ab.ind (bufGetD bc.ind (k : Int)))
          (foldMin ((List.range bc.length.toNat).map
            (fun k : Nat => bufGetD ab.ind (bufGetD bc.ind (k : Int)))) INT64_MAX)
          (foldMax ((List.range bc.length.toNat).map
            (fun k : Nat => bufGetD ab.ind (bufGetD bc.ind (k : Int)))) 0)
          (by
            intro k hk
            refine ⟨le_trans (by norm_num) (hgnn2 k hk), ?_⟩
            exact le_foldMax_of_mem
              (List.mem_map.2 ⟨k, List.mem_range.2 hk, rfl⟩) 0)
        refine ⟨_, rfl, hlen, fun i hi => ?_⟩
        rw [hget i hi]
        simp only [iterGet, habty, hbcty]
    | RI_ARR64 =>
      cases habty : ab.type with
      | RI_SLICE =>
        simp only [rowindex_merge, habty, hbcty]
        rw [if_neg hn0]
        have hb : ∀ k : Nat, k < bc.length.toNat →
            -2147483648 ≤ ab.start + (bufGetD bc.ind (k : Int)) * ab.step ∧
            ab.start + (bufGetD bc.ind (k : Int)) * ab.step ≤
              ab.start + ab.step * (if ab.step ≥ 0 then bc.max else bc.min) := by
          intro k hk
          have h0 := hgnn k hk
          simp only [iterGet, habty, hbcty] at h0
          obtain ⟨hlo, hhi⟩ := hmm k hk
          simp only [iterGet, hbcty] at hlo hhi
          constructor
          · nlinarith [h0]
          · rcases le_or_lt 0 ab.step with hsp | hsp
            · rw [if_pos (by omega : ab.step ≥ 0)]
              nlinarith [mul_le_mul_of_nonneg_left hhi hsp]
            · rw [if_neg (by omega : ¬ (ab.step ≥ 0))]
              nlinarith [mul_le_mul_of_nonpos_left hlo (le_of_lt hsp)]
        obtain ⟨hlen, hget⟩ := applyCompactify_gather bc.length
          (fun k : Nat => ab.start + (bufGetD bc.ind (k : Int)) * ab.step)
          (ab.start + ab.step * (if ab.step ≥ 0 then bc.min else bc.max))
          (ab.start + ab.step * (if ab.step ≥ 0 then bc.max else bc.min))
          hb
        refine ⟨_, rfl, hlen, fun i hi => ?_⟩
        rw [hget i hi]
        simp only [iterGet, habty, hbcty]
        ring
      | RI_ARR32 =>
        simp only [rowindex_merge, habty, hbcty]
        rw [if_neg hn0]
        have hgnn2 : ∀ k : Nat, k < bc.length.toNat →
            0 ≤ bufGetD ab.ind (bufGetD bc.ind (k : Int)) := by
          intro k hk
          have := hgnn k hk
          simpa only [iterGet, habty, hbcty] using this
        obtain ⟨hlen, hget⟩ := applyCompactify_gather bc.length
          (fun k : Nat => bufGetD ab.ind (bufGetD bc.ind (k : Int)))
          (foldMin ((List.range bc.length.toNat).map
            (fun k : Nat => bufGetD ab.ind (bufGetD bc.ind (k : Int)))) INT64_MAX)
          (foldMax ((List.range bc.length.toNat).map
            (fun k : Nat => bufGetD ab.ind (bufGetD bc.ind (k : Int)))) 0)
          (by
            intro k hk
            refine ⟨le_trans (by norm_num) (hgnn2 k hk), ?_⟩
            exact le_foldMax_of_mem
              (List.mem_map.2 ⟨k, List.mem_range.2 hk, rfl⟩) 0)
        refine ⟨_, rfl, hlen, fun i hi => ?_⟩
        rw [hget i hi]
        simp only [iterGet, habty, hbcty]
      | RI_ARR64 =>
        simp only [rowindex_merge, habty, hbcty]
        rw [if_neg hn0]
        have hgnn2 : ∀ k : Nat, k < bc.length.toNat →
            0 ≤ bufGetD ab.ind (bufGetD bc.ind (k : Int)) := by
          intro k hk
          have := hgnn k hk
          simpa only [iterGet, habty, hbcty] using this
        obtain ⟨hlen, hget⟩ := applyCompactify_gather bc.length
          (fun k : Nat => bufGetD ab.ind (bufGetD bc.ind (k : Int)))
          (foldMin ((List.range bc.length.toNat).map
            (fun k : Nat => bufGetD ab.ind (bufGetD bc.ind (k : Int)))) INT64_MAX)
          (foldMax ((List.range bc.length.toNat).map
            (fun k : Nat => bufGetD ab.ind (bufGetD bc.ind (k : Int)))) 0)
          (by
            intro k hk
            refine ⟨le_trans (by norm_num) (hgnn2 k hk), ?_⟩
            exact le_foldMax_of_mem
              (List.mem_map.2 ⟨k, List.mem_range.2 hk, rfl⟩) 0)
        refine ⟨_, rfl, hlen, fun i hi => ?_⟩
        rw [hget i hi]
        simp only [iterGet, habty, hbcty]

/-- Witness for C1 at concrete inputs: the ARR32 index [5, 3, 9, 1] merged
with the identity slice of length 2 satisfies the merge semantics. -/
theorem rowindex_merge_semantics_witness :
    ∃ res, rowindex_merge (some exArr32) (some exSlice2) = some res ∧
      res.length = exSlice2.length ∧
      ∀ i : Nat, i < exSlice2.length.toNat →
        iterGet res (i : Int) = iterGet exArr32 (iterGet exSlice2 (i : Int)) :=
  rowindex_merge_semantics exArr32 exSlice2 (by decide) (by decide) (by decide)

theorem chunkSel_of_le (sel : Int → Bool) (r0 r1 : Int) (h : r1 ≤ r0) :
    chunkSel sel r0 r1 = [] := by
  unfold chunkSel
  rw [show (r1 - r0).toNat = 0 by omega]
  rfl

theorem chunkSel_split (sel : Int → Bool) (a b c : Int) (hab : a ≤ b) (hbc : b ≤ c) :
    chunkSel sel a c = chunkSel sel a b ++ chunkSel sel b c := by
  unfold chunkSel
  rw [← List.filter_append]
  congr 1
  rw [show (c - a).toNat = (b - a).toNat + (c - b).toNat by omega,
    List.range_add, List.map_append, List.map_map]
  congr 1
  apply List.map_congr_left
  intro k _
  show a + (((b - a).toNat + k : Nat) : Int) = b + (k : Int)
  push_cast [Int.toNat_of_nonneg (by omega : (0 : Int) ≤ b - a)]
  ring

theorem filter_foldl_chunks (sel : Int → Bool) (N : Int) : ∀ m : Nat,
    (List.range m).foldl
      (fun (acc : List Int) (i : Nat) => acc ++ chunkSel sel ((i : Int) * rows_per_chunk)
        (min ((i : Int) * rows_per_chunk + rows_per_chunk) N)) [] =
    chunkSel sel 0 (min ((m : Int) * rows_per_chunk) N) := by
  have hK : (0 : Int) < rows_per_chunk := by norm_num [rows_per_chunk]
  intro m
  induction m with
  | zero =>
    rw [List.range_zero]
    simp only [Nat.cast_zero, zero_mul]
    exact (chunkSel_of_le sel 0 _ (min_le_left 0 N)).symm
  | succ m ih =>
    rw [List.range_succ, List.foldl_append, ih]
    show chunkSel sel 0 (min ((m : Int) * rows_per_chunk) N) ++
        chunkSel sel ((m : Int) * rows_per_chunk)
          (min ((m : Int) * rows_per_chunk + rows_per_chunk) N) =
      chunkSel sel 0 (min (((m : Nat) + 1 : Nat) * rows_per_chunk) N)
    have hcast : ((((m : Nat) + 1 : Nat) : Int)) * rows_per_chunk =
        (m : Int) * rows_per_chunk + rows_per_chunk := by push_cast; ring
    rw [hcast]
    have hm0 : (0 : Int) ≤ (m : Int) * rows_per_chunk :=
      mul_nonneg (by positivity) (le_of_lt hK)
    rcases le_or_lt N ((m : Int) * rows_per_chunk) with hN | hN
    · rw [min_eq_right hN, min_eq_right (by omega),
        chunkSel_of_le sel _ _ hN, List.append_nil]
    · rw [min_eq_left (le_of_lt hN)]
      exact (chunkSel_split sel 0 ((m : Int) * rows_per_chunk) _ hm0
        (le_min (by omega) (le_of_lt hN))).symm

theorem num_chunks_covers (N : Int) :
    min ((((N + rows_per_chunk - 1) / rows_per_chunk).toNat : Int) *
      rows_per_chunk) N = N := by
  have hK : (0 : Int) < rows_per_chunk := by norm_num [rows_per_chunk]
  rcases le_or_lt N 0 with hN | hN
  · have hq : (N + rows_per_chunk - 1) / rows_per_chunk < 1 :=
      (Int.ediv_lt_iff_lt_mul hK).2 (by omega)
    rw [show ((N + rows_per_chunk - 1) / rows_per_chunk).toNat = 0 by omega]
    simpa using min_eq_right hN
  · have hq0 : 0 ≤ (N + rows_per_chunk - 1) / rows_per_chunk :=
      Int.ediv_nonneg (by omega) (le_of_lt hK)
    have hdm := Int.ediv_add_emod (N + rows_per_chunk - 1) rows_per_chunk
    have hr0 := Int.emod_nonneg (N + rows_per_chunk - 1) (ne_of_gt hK)
    have hrK := Int.emod_lt_of_pos (N + rows_per_chunk - 1) hK
    rw [Int.toNat_of_nonneg hq0]
    apply min_eq_right
    nlinarith [hdm, hr0, hrK]

theorem chunkSel_pairwise (sel : Int → Bool) (r0 r1 : Int) :
    (chunkSel sel r0 r1).Pairwise (· < ·) := by
  unfold chunkSel
  apply List.Pairwise.filter
  apply List.Pairwise.map (R := (· < · : Nat → Nat → Prop))
  · intro a b hab
    show r0 + (a : Int) < r0 + (b : Int)
    omega
  · exact List.pairwise_lt_range _

theorem chunkSel_mem (sel : Int → Bool) (N r : Int) :
    r ∈ chunkSel sel 0 N ↔ (0 ≤ r ∧ r < N ∧ sel r = true) := by
  unfold chunkSel
  rw [List.mem_filter]
  constructor
  · rintro ⟨hm, hs⟩
    obtain ⟨k, hk, rfl⟩ := List.mem_map.1 hm
    have hk2 := List.mem_range.1 hk
    exact ⟨by omega, by omega, hs⟩
  · rintro ⟨h0, h1, hs⟩
    refine ⟨List.mem_map.2 ⟨r.toNat, List.mem_range.2 (by omega), ?_⟩, ?_⟩
    · show 0 + (r.toNat : Int) = r
      omega
    · exact hs

/-- C5: for every nrows within the int32 signed range and every callback that
writes, for each chunk [row0, row1), exactly the rows selected by a fixed
predicate in ascending order, the filter builder produces an ARR32 whose
buffer is strictly ascending and contains a row r exactly when 0 ≤ r < nrows
and the predicate selects r; for nrows above the int32 range it returns the
no-result signal. -/
theorem rowindex_from_filterfn32_claim (filterfn : Int → Int → List Int)
    (sel : Int → Bool) (nrows : Int)
    (hf : ∀ row0 row1 : Int, filterfn row0 row1 = chunkSel sel row0 row1) :
    (INT32_MAX < nrows → rowindex_from_filterfn32 filterfn nrows = none) ∧
    (nrows ≤ INT32_MAX →
      ∃ res, rowindex_from_filterfn32 filterfn nrows = some res ∧
        res.type = .RI_ARR32 ∧ res.ind = some (chunkSel sel 0 nrows) ∧
        (chunkSel sel 0 nrows).Pairwise (· < ·) ∧
        ∀ r : Int, r ∈ chunkSel sel 0 nrows ↔
          (0 ≤ r ∧ r < nrows ∧ sel r = true)) := by
  constructor
  · intro h
    unfold rowindex_from_filterfn32
    rw [if_pos (by omega : nrows > INT32_MAX)]
  · intro h
    have hout : (List.range
        ((nrows + rows_per_chunk - 1) / rows_per_chunk).toNat).foldl
        (fun (acc : List Int) (i : Nat) =>
          acc ++ filterfn ((i : Int) * rows_per_chunk)
            (min ((i : Int) * rows_per_chunk + rows_per_chunk) nrows)) [] =
        chunkSel sel 0 nrows := by
      simp only [hf]
      rw [filter_foldl_chunks sel nrows, num_chunks_covers nrows]
    simp only [rowindex_from_filterfn32]
    rw [if_neg (by omega : ¬ nrows > INT32_MAX)]
    rw [hout]
    exact ⟨_, rfl, rfl, rfl, chunkSel_pairwise sel 0 nrows,
      fun r => chunkSel_mem sel nrows r⟩

/-- Witness for C5: the odd-row predicate on 10 rows. -/
theorem rowindex_from_filterfn32_claim_witness :
    ∃ res, rowindex_from_filterfn32
        (chunkSel (fun r : Int => r % 2 == 1)) 10 = some res ∧
      res.type = .RI_ARR32 ∧
      res.ind = some (chunkSel (fun r : Int => r % 2 == 1) 0 10) ∧
      (chunkSel (fun r : Int => r % 2 == 1) 0 10).Pairwise (· < ·) ∧
      ∀ r : Int, r ∈ chunkSel (fun r : Int => r % 2 == 1) 0 10 ↔
        (0 ≤ r ∧ r < 10 ∧ ((r % 2 == 1) = true)) :=
  (rowindex_from_filterfn32_claim (chunkSel (fun r : Int => r % 2 == 1))
    (fun r : Int => r % 2 == 1) 10 (fun _ _ => rfl)).2 (by decide)

theorem foldl_fixed {α β : Type} (f : α → β → α) (l : List β)
    (h : ∀ b ∈ l, ∀ a, f a b = a) : ∀ init, l.foldl f init = init := by
  induction l with
  | nil => intro init; rfl
  | cons x xs ih =>
    intro init
    show xs.foldl f (f init x) = init
    rw [h x (List.mem_cons_self x xs) init]
    exact ih (fun b hb a => h b (List.mem_cons_of_mem x hb) a) init

theorem bigBuf_getD_lt (i : Nat) (hi : i < 2147483649) : bigBuf.getD i 0 = 1 := by
  unfold bigBuf
  rw [List.getD_eq_getElem?_getD,
    List.getElem?_append_left (by simp only [List.length_replicate]; omega),
    List.getElem?_replicate]
  simp [hi]

theorem bigBuf_getD_last : bigBuf.getD 2147483649 0 = 0 := by
  unfold bigBuf
  rw [List.getD_eq_getElem?_getD,
    List.getElem?_append_right (by simp only [List.length_replicate]; omega),
    List.length_replicate,
    show (2147483649 - 2147483649 : Nat) = 0 by norm_num]
  rfl

theorem exArr64Big_iterGet_lt (i : Nat) (hi : i < 2147483649) :
    iterGet exArr64Big (i : Int) = 1 := by
  show bigBuf.getD ((i : Int)).toNat 0 = 1
  rw [Int.toNat_natCast]
  exact bigBuf_getD_lt i hi

theorem exArr64Big_iterGet_last :
    iterGet exArr64Big (((2147483649 : Nat)) : Int) = 0 := by
  show bigBuf.getD (((2147483649 : Nat) : Int)).toNat 0 = 0
  rw [Int.toNat_natCast]
  exact bigBuf_getD_last

theorem exArr64Big_iterGet_last_int : iterGet exArr64Big (2147483649 : Int) = 0 := by
  rw [show (2147483649 : Int) = ((2147483649 : Nat) : Int) by norm_num]
  exact exArr64Big_iterGet_last


/-- C8 (refuting evidence, code bug): on the two-byte boolean column [1, 0]
composed with the length-2^31+2 ARR64 index `exArr64Big`, the only selected
iteration position is i = 2^31+1; `nouts = 1` and `maxrow = 0` both fit in
int32, so the ARR32 branch runs and stores `(int32_t) i = -2147483647`
instead of `i`: the emitted element is neither the iteration position nor
inside [0, length). -/
theorem from_column_with_rowindex_trunc_bug :
    ∃ res, rowindex_from_column_with_rowindex exCol10 exArr64Big = some res ∧
      res.type = .RI_ARR32 ∧ res.length = 1 ∧ res.min = -2147483647 ∧
      res.ind = some [-2147483647] := by
  have hsplit : List.range 2147483650 = List.range 2147483649 ++ [2147483649] := by
    rw [show (2147483650 : Nat) = 2147483649 + 1 by norm_num, List.range_add]
    congr 1
  have hsel_lt : ∀ i : Nat, i < 2147483649 →
      (exCol10.data.getD (iterGet exArr64Big (i : Int)).toNat 0 == 1) = false := by
    intro i hi
    rw [exArr64Big_iterGet_lt i hi]
    rfl
  have hsel_last :
      (exCol10.data.getD
        (iterGet exArr64Big (((2147483649 : Nat)) : Int)).toNat 0 == 1) = true := by
    rw [exArr64Big_iterGet_last]
    rfl
  have hfilter : (List.range 2147483650).filter
      (fun i : Nat =>
        exCol10.data.getD (iterGet exArr64Big (i : Int)).toNat 0 == 1) =
      [2147483649] := by
    rw [hsplit, List.filter_append]
    have h1 : (List.range 2147483649).filter
        (fun i : Nat =>
          exCol10.data.getD (iterGet exArr64Big (i : Int)).toNat 0 == 1) = [] :=
      List.filter_eq_nil_iff.2 (fun a ha => by
        show ¬ ((exCol10.data.getD
          (iterGet exArr64Big (a : Int)).toNat 0 == 1) = true)
        rw [hsel_lt a (List.mem_range.1 ha)]
        simp)
    have h2 : ([2147483649] : List Nat).filter
        (fun i : Nat =>
          exCol10.data.getD (iterGet exArr64Big (i : Int)).toNat 0 == 1) =
        [2147483649] := by
      rw [List.filter_singleton]
      simp only [hsel_last]
      rfl
    rw [h1, h2]
    rfl
  have hmaxrow : (List.range 2147483650).foldl
      (fun (m : Int) (i : Nat) =>
        if (exCol10.data.getD (iterGet exArr64Big (i : Int)).toNat 0 == 1) = true
        then iterGet exArr64Big (i : Int) else m) 0 = 0 := by
    rw [hsplit, List.foldl_append]
    have hfold0 : (List.range 2147483649).foldl
        (fun (m : Int) (i : Nat) =>
          if (exCol10.data.getD (iterGet exArr64Big (i : Int)).toNat 0 == 1) = true
          then iterGet exArr64Big (i : Int) else m) 0 = 0 :=
      foldl_fixed _ _ (fun b hb a => by
        show (if (exCol10.data.getD
              (iterGet exArr64Big (b : Int)).toNat 0 == 1) = true
            then iterGet exArr64Big (b : Int) else a) = a
        rw [hsel_lt b (List.mem_range.1 hb)]
        simp) 0
    rw [hfold0]
    rw [List.foldl_cons, List.foldl_nil]
    simp [hsel_last, exArr64Big_iterGet_last, exArr64Big_iterGet_last_int]
  refine ⟨{ type := .RI_ARR32, length := 1, min := -2147483647, max := 0,
            start := 0, step := 0, ind := some [-2147483647] },
    ?_, rfl, rfl, rfl, rfl⟩
  simp only [rowindex_from_column_with_rowindex]
  rw [if_neg (by decide : ¬ (exCol10.stype ≠ SType.ST_BOOLEAN_I1))]
  rw [show exArr64Big.length.toNat = 2147483650 from rfl]
  rw [hfilter, hmaxrow]
  decide

theorem heapGet_append (h : Heap) (l : List Int) (q : Nat) (hq : q < h.length) :
    heapGet (h ++ [l]) q = heapGet h q := by
  unfold heapGet
  rw [List.getD_eq_getElem?_getD, List.getD_eq_getElem?_getD,
    List.getElem?_append_left hq]

theorem heapGet_set_append (h : Heap) (l l2 : List Int) (p q : Nat)
    (hp : h.length ≤ p) (hq : q < h.length) :
    heapGet ((h ++ [l]).set p l2) q = heapGet h q := by
  unfold heapGet
  rw [List.getD_eq_getElem?_getD, List.getD_eq_getElem?_getD,
    List.getElem?_set_ne (by omega : p ≠ q), List.getElem?_append_left hq]

/-- The in-place compactification at the end of a merge branch only rewrites
the freshly allocated cell, so all pre-existing cells are untouched. -/
theorem compactifyH_frame (h : Heap) (out : List Int) (r : RowIndexH)
    (hptr : h.length ≤ r.ptr) (q : Nat) (hq : q < h.length) :
    heapGet (compactifyH (h ++ [out]) r).1 q = heapGet h q := by
  unfold compactifyH
  split
  · exact heapGet_append h out q hq
  · exact heapGet_set_append h out _ r.ptr q hptr hq

theorem compactifyH_ptr (h : Heap) (r : RowIndexH) :
    (compactifyH h r).2.ptr = r.ptr := by
  unfold compactifyH
  split <;> rfl

theorem fresh_ptr_side (h : Heap) (a b : RowIndexH) (p : Nat) (hp : p = h.length)
    (ha : a.ptr < h.length) (hb : b.ptr < h.length) :
    h.length ≤ p ∧ p ≠ a.ptr ∧ p ≠ b.ptr := by omega

/-- C9: for every heap and every non-null pair of row indexes whose payloads
live in the heap, merge leaves every pre-existing heap cell unchanged (it
never mutates its inputs' buffers or headers) and, whenever the result is an
array variant, its payload is a freshly allocated cell distinct from both
inputs' payloads. -/
theorem rowindex_mergeH_frame (h : Heap) (a b : RowIndexH)
    (ha : a.ptr < h.length) (hb : b.ptr < h.length) :
    ∃ h2 res, rowindex_mergeH h (some a) (some b) = (h2, some res) ∧
      (∀ q, q < h.length → heapGet h2 q = heapGet h q) ∧
      ((res.type = .RI_ARR32 ∨ res.type = .RI_ARR64) →
        h.length ≤ res.ptr ∧ res.ptr ≠ a.ptr ∧ res.ptr ≠ b.ptr) := by
  by_cases hn0 : b.length = 0
  · have he : rowindex_mergeH h (some a) (some b) =
        (h, some { type := .RI_SLICE, length := b.length, min := 0, max := 0,
                   start := 0, step := 1, ptr := 0 }) := by
      simp only [rowindex_mergeH]
      rw [if_pos hn0]
    refine ⟨_, _, he, fun q hq => rfl, fun hcontra => ?_⟩
    rcases hcontra with hc | hc <;> exact RowIndexType.noConfusion hc
  · cases hbty : b.type with
    | RI_SLICE =>
      cases haty : a.type with
      | RI_SLICE =>
        simp only [rowindex_mergeH, haty, hbty]
        rw [if_neg hn0]
        refine ⟨_, _, rfl, fun q hq => rfl, fun hcontra => ?_⟩
        rcases hcontra with hc | hc <;> exact RowIndexType.noConfusion hc
      | RI_ARR32 =>
        simp only [rowindex_mergeH, haty, hbty, allocH]
        rw [if_neg hn0]
        by_cases hbsp : b.step = 0
        · rw [if_pos hbsp]
          refine ⟨_, _, rfl, fun q hq => rfl, fun hcontra => ?_⟩
          rcases hcontra with hc | hc <;> exact RowIndexType.noConfusion hc
        · rw [if_neg hbsp]
          exact ⟨_, _, rfl, fun q hq => heapGet_append h _ q hq,
            fun _ => fresh_ptr_side h a b _ rfl ha hb⟩
      | RI_ARR64 =>
        simp only [rowindex_mergeH, haty, hbty, allocH]
        rw [if_neg hn0]
        by_cases hbsp : b.step = 0
        · rw [if_pos hbsp]
          refine ⟨_, _, rfl, fun q hq => rfl, fun hcontra => ?_⟩
          rcases hcontra with hc | hc <;> exact RowIndexType.noConfusion hc
        · rw [if_neg hbsp]
          refine ⟨_, _, rfl,
            fun q hq => compactifyH_frame h _ _ (le_of_eq rfl) q hq,
            fun _ => ?_⟩
          rw [compactifyH_ptr]
          exact fresh_ptr_side h a b _ rfl ha hb
    | RI_ARR32 =>
      cases haty : a.type with
      | RI_SLICE =>
        simp only [rowindex_mergeH, haty, hbty, allocH]
        rw [if_neg hn0]
        refine ⟨_, _, rfl,
          fun q hq => compactifyH_frame h _ _ (le_of_eq rfl) q hq, fun _ => ?_⟩
        rw [compactifyH_ptr]
        exact fresh_ptr_side h a b _ rfl ha hb
      | RI_ARR32 =>
        simp only [rowindex_mergeH, haty, hbty, allocH]
        rw [if_neg hn0]
        exact ⟨_, _, rfl, fun q hq => heapGet_append h _ q hq,
          fun _ => fresh_ptr_side h a b _ rfl ha hb⟩
      | RI_ARR64 =>
        simp only [rowindex_mergeH, haty, hbty, allocH]
        rw [if_neg hn0]
        refine ⟨_, _, rfl,
          fun q hq => compactifyH_frame h _ _ (le_of_eq rfl) q hq, fun _ => ?_⟩
        rw [compactifyH_ptr]
        exact fresh_ptr_side h a b _ rfl ha hb
    | RI_ARR64 =>
      cases haty : a.type with
      | RI_SLICE =>
        simp only [rowindex_mergeH, haty, hbty, allocH]
        rw [if_neg hn0]
        refine ⟨_, _, rfl,
          fun q hq => compactifyH_frame h _ _ (le_of_eq rfl) q hq, fun _ => ?_⟩
        rw [compactifyH_ptr]
        exact fresh_ptr_side h a b _ rfl ha hb
      | RI_ARR32 =>
        simp only [rowindex_mergeH, haty, hbty, allocH]
        rw [if_neg hn0]
        refine ⟨_, _, rfl,
          fun q hq => compactifyH_frame h _ _ (le_of_eq rfl) q hq, fun _ => ?_⟩
        rw [compactifyH_ptr]
        exact fresh_ptr_side h a b _ rfl ha hb
      | RI_ARR64 =>
        simp only [rowindex_mergeH, haty, hbty, allocH]
        rw [if_neg hn0]
        refine ⟨_, _, rfl,
          fun q hq => compactifyH_frame h _ _ (le_of_eq rfl) q hq, fun _ => ?_⟩
        rw [compactifyH_ptr]
        exact fresh_ptr_side h a b _ rfl ha hb

/-- Witness for C9 at a concrete heap holding the payloads of two ARR32 row
indexes. -/
theorem rowindex_mergeH_frame_witness :
    ∃ h2 res, rowindex_mergeH exHeap (some exAH) (some exBH) = (h2, some res) ∧
      (∀ q, q < exHeap.length → heapGet h2 q = heapGet exHeap q) ∧
      ((res.type = .RI_ARR32 ∨ res.type = .RI_ARR64) →
        exHeap.length ≤ res.ptr ∧ res.ptr ≠ exAH.ptr ∧ res.ptr ≠ exBH.ptr) :=
  rowindex_mergeH_frame exHeap exAH exBH (by decide) (by decide)
